import Mathlib

/-
Verification of the PetWalk recommendation core: a shallow embedding of
the time-window safety scoring and route ranking engine
(src/core/recommend.py, src/core/weather.py, src/core/ai_agent.py and the
scoring/ranking fragments of src/app.py), together with theorems settling
the frozen claims about it.

Conventions of the embedding:
* Python floats are modelled as rationals (ℚ).  Every numeric literal the
  claims exercise is an integer, a half or a quarter, all exactly
  representable in IEEE double, so float and rational evaluation agree on
  every input a theorem below touches.
* Python ints are ℤ, `int(x)` on a number is truncation toward zero
  (`pytrunc`), `round(x)` is round-half-to-even (`pyround`).
* Python strings are Lean `String`s; `a < b` on Python strings is
  code-point lexicographic comparison, embedded as the executable `strLt`.
* Fallible code is embedded in `Except`: `Except.error` marks a raised
  Python exception.
-/

/-- Truncation toward zero: the value of Python `int(q)` on a number. -/
def pytrunc (q : ℚ) : ℤ := if 0 ≤ q then ⌊q⌋ else -⌊-q⌋

/-- Round half to even: the value of Python `round(q)` (banker's rounding),
used only to state the spec's formula next to the code's. -/
def pyround (q : ℚ) : ℤ :=
  if q - ⌊q⌋ < 1/2 then ⌊q⌋
  else if 1/2 < q - ⌊q⌋ then ⌊q⌋ + 1
  else if ⌊q⌋ % 2 = 0 then ⌊q⌋ else ⌊q⌋ + 1

/-- Code-point lexicographic order on char lists: the order Python uses to
compare strings.  Executable by structural recursion so that the kernel can
evaluate it on concrete inputs. -/
def lexLt : List Char → List Char → Bool
  | [], [] => false
  | [], _ :: _ => true
  | _ :: _, [] => false
  | a :: as, b :: bs => if a < b then true else if b < a then false else lexLt as bs

/-- Python `a < b` on strings. -/
def strLt (a b : String) : Bool := lexLt a.data b.data

/-- Parse a list of decimal digit chars.  Python `int(s)` raises on a
non-digit; the claims only evaluate it on digit strings, where the two
agree, so non-digits are given the junk value produced by the fold. -/
def digitsToNat (l : List Char) : ℕ :=
  l.foldl (fun n c => n * 10 + (c.toNat - 48)) 0

-- =====================================================================
-- src/core/recommend.py
-- =====================================================================

/-- One element of the hourly weather list: the dict
`{"time": str, "temp": float, "rh": float, "wind": float}` built by
src/core/weather.py lines 20-25 and consumed by recommend.py and app.py. -/
structure HourlyRaw where
  time : String
  temp : ℚ
  rh : ℚ
  wind : ℚ

/-- recommend.py lines 5-9: the per-size temperature thresholds (keys are
the Japanese size names used by the code; 25.0/27.0/28.0 written as the
equal rationals 25/27/28). -/
def SIZE_THRESH : List (String × ℚ) := [("小型", 25), ("中型", 27), ("大型", 28)]

/-- Python `dict.get(k, dflt)` on an association list with distinct keys. -/
def dictGet (d : List (String × ℚ)) (k : String) (dflt : ℚ) : ℚ :=
  match d with
  | [] => dflt
  | (k', v) :: rest => if k = k' then v else dictGet rest k dflt

/-- recommend.py lines 15-18 (also app.py lines 358-360): threshold from
size, minus 1.0 for a senior dog (age >= 8). -/
def walkThreshold (size : String) (age : ℚ) : ℚ :=
  let t := dictGet SIZE_THRESH size 26
  if 8 ≤ age then t - 1 else t

/-- recommend.py line 22 (also app.py line 363):
`int(h["time"].split("T")[1][:2]) if "T" in h["time"] else 0`.
The chars after the first `T` up to the next `T` are Python's
`split("T")[1]`; `[:2]` keeps at most two of them. -/
def hourOf (time : String) : ℕ :=
  if time.data.contains 'T' then
    digitsToNat ((((time.data.dropWhile (· ≠ 'T')).drop 1).takeWhile (· ≠ 'T')).take 2)
  else 0

/-- recommend.py line 23 (also app.py line 364): apparent surface
temperature, +4 degrees during local hours 9..16. -/
def t_surf (h : HourlyRaw) : ℚ :=
  h.temp + (if 9 ≤ hourOf h.time ∧ hourOf h.time ≤ 16 then 4 else 0)

/-- recommend.py line 24: `safe = (t_surf <= threshold) and (h["wind"] >= 1.0)`. -/
def isSafe (threshold : ℚ) (h : HourlyRaw) : Bool :=
  decide (t_surf h ≤ threshold) && decide ((1 : ℚ) ≤ h.wind)

/-- recommend.py line 25: `ts = h["time"].replace("T", " ")` — for the
single-char pattern, `str.replace` maps every `T` to a space. -/
def tsOf (h : HourlyRaw) : String :=
  ⟨h.time.data.map fun c => if c = 'T' then ' ' else c⟩

/-- A window dict `{"start": ts, "end": ts}` built by recommend.py
lines 26-34 (`end` is a Lean keyword, so the field is `stop`). -/
structure Window where
  start : String
  stop : String
  deriving DecidableEq

/-- recommend.py lines 19-34: the scan loop.  `cur` is the `start` of the
currently open window (Python's `cur` dict), `lastTs` the already-replaced
timestamp of the last sample of the whole input
(`hourly[-1]["time"].replace("T", " ")`), used when a window is still open
at the end of the sequence. -/
def scanW (lastTs : String) (thr : ℚ) : List HourlyRaw → Option String → List Window
  | [], cur =>
    match cur with
    | none => []
    | some s => [⟨s, lastTs⟩]
  | h :: t, cur =>
    if isSafe thr h then
      match cur with
      | none => scanW lastTs thr t (some (tsOf h))
      | some s => scanW lastTs thr t (some s)
    else
      match cur with
      | none => scanW lastTs thr t none
      | some s => ⟨s, tsOf h⟩ :: scanW lastTs thr t none

/-- recommend.py lines 14-35: `recommend_time_windows(hourly, size, age,
weight)`.  `weight` is accepted and unused exactly as in the source.  On an
empty input Python never reads `hourly[-1]`, and neither does the scan, so
the `""` default of `getD` is never used. -/
def recommend_time_windows (hourly : List HourlyRaw) (size : String) (age : ℚ)
    (weight : ℚ) : List Window :=
  let threshold := walkThreshold size age
  scanW ((hourly.getLast?.map tsOf).getD "") threshold hourly none

/-- recommend.py lines 40-52: `score_route(route, pois)` — `pois` is unused
by the source.  The route dict is represented by the two fields the
function reads: `route.get("poi", {}).get("kind", "")` (so `none` stands
for a missing poi/kind, defaulting to `""`) and
`route.get("distance_m", 1000)`. -/
def score_route (poi_kind : Option String) (distance_m : Option ℤ) : ℤ :=
  let kind := poi_kind.getD ""
  let base : ℤ :=
    (if kind = "park" then 30 else 0) + (if kind = "footway" ∨ kind = "path" then 15 else 0)
  let dist : ℤ := max 1 (distance_m.getD 1000)
  let dist_score : ℤ := max 0 (pytrunc ((40 : ℚ) * (1500 - min (dist : ℚ) 1500) / 1500))
  base + dist_score

-- =====================================================================
-- src/app.py (TAB1 scoring and ranking fragments)
-- =====================================================================

/-- app.py lines 362-370: `_hourly_score(h)` with the enclosing
`threshold` (computed at lines 358-360 exactly as `walkThreshold`). -/
def hourly_score (threshold : ℚ) (h : HourlyRaw) : ℤ :=
  let delta := threshold - t_surf h
  let s : ℤ := 50 + pytrunc (delta * 6)
  let s := if h.wind < 1/2 then s - 5 else if 6 < h.wind then s - 3 else s
  let s := if 75 < h.rh then s - pytrunc ((h.rh - 75) / 2) else s
  max 0 (min 100 s)

/-- Modelled from the spec (section 4.3), NOT from the code: the hourly
comfort formula as the spec words it, with `round(...)` where the code has
`int(...)`.  Stated only to compare against `hourly_score`. -/
def spec_hourly_score (threshold : ℚ) (h : HourlyRaw) : ℤ :=
  let delta := threshold - t_surf h
  let s : ℤ := 50 + pyround (delta * 6)
  let s := if h.wind < 1/2 then s - 5 else if 6 < h.wind then s - 3 else s
  let s := if 75 < h.rh then s - pyround ((h.rh - 75) / 2) else s
  max 0 (min 100 s)

/-- A scored route as ranked by app.py line 236: the fields the sort key
reads (`score`, `distance_m` — always set by line 229/231) plus the poi
name as the identity of the route. -/
structure ScoredRoute where
  score : ℤ
  distance_m : ℤ
  name : String
  deriving DecidableEq

/-- The sort key of app.py line 236, `(-(r["score"]), r["distance_m"])`,
as a non-strict order: `a` sorts no later than `b`. -/
def rankLE (a b : ScoredRoute) : Prop :=
  b.score < a.score ∨ (a.score = b.score ∧ a.distance_m ≤ b.distance_m)

instance : DecidableRel rankLE := fun a b => by
  rw [rankLE]
  infer_instance

instance : IsTotal ScoredRoute rankLE := ⟨by
  intro a b
  rw [rankLE, rankLE]
  omega⟩

instance : IsTrans ScoredRoute rankLE := ⟨by
  intro a b c hab hbc
  rw [rankLE] at *
  omega⟩

/-- app.py lines 236-237: stable sort by descending score with ascending
distance tie-break, then truncation to the first `k` (the code uses
`k = MAX_ROUTES = 3`).  Python's sort is stable and `List.insertionSort`
is stable, and a stable sort's output is determined by the key order plus
stability, so the two agree on every input. -/
def rank (l : List ScoredRoute) (k : ℕ) : List ScoredRoute :=
  (List.insertionSort rankLE l).take k

/-- `rankLE` strengthened with distinctness of the sort keys: a strict
relation on lists whose keys are pairwise distinct. -/
def rankS (a b : ScoredRoute) : Prop :=
  rankLE a b ∧ (a.score, a.distance_m) ≠ (b.score, b.distance_m)

instance : IsAntisymm ScoredRoute rankS := ⟨by
  intro a b hab hba
  exfalso
  rcases hab with ⟨h1, hne⟩
  rcases hba with ⟨h2, -⟩
  apply hne
  rw [rankLE] at h1 h2
  have hs : a.score = b.score := by omega
  have hd : a.distance_m = b.distance_m := by omega
  rw [hs, hd]⟩

-- =====================================================================
-- src/core/weather.py
-- =====================================================================

/-- The `js["hourly"]` object of the open-meteo response consumed by
weather.py lines 19-25: four parallel arrays. -/
structure WxResponse where
  time : List String
  temperature_2m : List ℚ
  relative_humidity_2m : List ℚ
  wind_speed_10m : List ℚ

/-- Python list indexing `xs[i]`: `IndexError` when out of range. -/
def pyIndex (xs : List α) (i : ℕ) : Except Unit α :=
  match xs.get? i with
  | some a => .ok a
  | none => .error ()

/-- weather.py lines 18-25: the `for i, t in enumerate(js["hourly"]["time"])`
loop building the output records, indexing the three numeric arrays at `i`. -/
def wxRows (js : WxResponse) : ℕ → List String → Except Unit (List HourlyRaw)
  | _, [] => .ok []
  | i, t :: rest => do
    let temp ← pyIndex js.temperature_2m i
    let rh ← pyIndex js.relative_humidity_2m i
    let wind ← pyIndex js.wind_speed_10m i
    let tail ← wxRows js (i + 1) rest
    .ok (⟨t, temp, rh, wind⟩ :: tail)

/-- weather.py lines 8-26: `get_hourly_weather(lat, lon, hours, tz)` after
the network fetch, as a function of the decoded response: build all rows,
then return `out[:hours]`. -/
def get_hourly_weather (js : WxResponse) (hours : ℕ) : Except Unit (List HourlyRaw) :=
  (wxRows js 0 js.time).map (List.take hours)

/-- weather.py line 8: a call that does not pass `hours` uses the default
of the signature `def get_hourly_weather(lat, lon, hours: int = 24, ...)`. -/
def get_hourly_weather_default (js : WxResponse) : Except Unit (List HourlyRaw) :=
  get_hourly_weather js 24

-- =====================================================================
-- src/core/ai_agent.py
-- =====================================================================

/-- A decoded JSON value, the result type of `json.loads`. -/
inductive JVal where
  | null
  | bool (b : Bool)
  | num (q : ℚ)
  | str (s : String)
  | arr (elems : List JVal)
  | obj (fields : List (String × JVal))

/-- Python truthiness of a JSON value: `None`, `False`, `0`, `""`, `[]`
and `\x7b\x7d` are falsy. -/
def truthy : JVal → Bool
  | .null => false
  | .bool b => b
  | .num q => decide (q ≠ 0)
  | .str s => decide (s ≠ "")
  | .arr l => !l.isEmpty
  | .obj l => !l.isEmpty

/-- `dict.get(k)` on a decoded JSON object: `json.loads` keeps one value
per key, so the fields list is looked up first-match. -/
def jget (fields : List (String × JVal)) (k : String) : Option JVal :=
  match fields with
  | [] => none
  | (k', v) :: rest => if k = k' then some v else jget rest k

/-- Python `x or dflt` applied to the result of `dict.get(k)`:
a missing key gives `None`, and a falsy value is replaced by `dflt`. -/
def pyOr (v : Option JVal) (dflt : JVal) : JVal :=
  match v with
  | some x => if truthy x then x else dflt
  | none => dflt

/-- Python `int(s)` on a string: optional whitespace, optional sign,
decimal digits, else `ValueError`. -/
def parseIntStr (s : String) : Except Unit ℤ :=
  let t := (s.data.dropWhile (· = ' ')).reverse.dropWhile (· = ' ') |>.reverse
  match t with
  | [] => .error ()
  | '-' :: ds => if ds ≠ [] ∧ ds.all (·.isDigit) then .ok (-(digitsToNat ds : ℤ)) else .error ()
  | '+' :: ds => if ds ≠ [] ∧ ds.all (·.isDigit) then .ok (digitsToNat ds : ℤ) else .error ()
  | ds => if ds.all (·.isDigit) then .ok (digitsToNat ds : ℤ) else .error ()

/-- Python `int(v)` on a decoded JSON value: truncation for a number,
0/1 for a bool, digit parsing for a string, `TypeError` otherwise. -/
def pyIntOfJVal : JVal → Except Unit ℤ
  | .num q => .ok (pytrunc q)
  | .bool b => .ok (if b then 1 else 0)
  | .str s => parseIntStr s
  | _ => .error ()

mutual

/-- Python `repr` of a decoded JSON value (\x27 is the quote).  The claims
never evaluate it — window fields are strings on every input a theorem
touches — so the numeric rendering abbreviates Python float repr by
printing the numerator of an integral rational. -/
def pyRepr : JVal → String
  | .null => "None"
  | .bool true => "True"
  | .bool false => "False"
  | .num q => toString q.num
  | .str s => "\x27" ++ s ++ "\x27"
  | .arr l => "[" ++ pyReprList l ++ "]"
  | .obj l => "\x7b" ++ pyReprObj l ++ "\x7d"

def pyReprList : List JVal → String
  | [] => ""
  | [x] => pyRepr x
  | x :: xs => pyRepr x ++ ", " ++ pyReprList xs

def pyReprObj : List (String × JVal) → String
  | [] => ""
  | [(k, v)] => "\x27" ++ k ++ "\x27: " ++ pyRepr v
  | (k, v) :: xs => "\x27" ++ k ++ "\x27: " ++ pyRepr v ++ ", " ++ pyReprObj xs

end

/-- Python `str(v)` of a decoded JSON value. -/
def pyStr : JVal → String
  | .str s => s
  | v => pyRepr v

/-- The observable outcome of `llm.invoke(msgs).content` followed by the
regex/`json.loads` steps of `_invoke_json` (ai_agent.py lines 64-72).
Every run falls in exactly one case:
* `raised` — `llm.invoke` itself raises (timeout, network error, any
  raised error);
* `noJson` — a content string in which the regex finds no JSON object
  candidate (no match for a first brace followed by a last brace);
* `badJson` — the regex matches but `json.loads` raises on the matched
  text;
* `json v` — `json.loads` returns the value `v`. -/
inductive LLMOutcome where
  | raised
  | noJson
  | badJson
  | json (v : JVal)

/-- ai_agent.py lines 64-72, `_invoke_json`: an exception propagates to
the caller (`Except.error`); no regex match returns the empty dict;
otherwise the parsed value is returned. -/
def invoke_json : LLMOutcome → Except Unit JVal
  | .raised => .error ()
  | .noJson => .ok (.obj [])
  | .badJson => .error ()
  | .json v => .ok v

/-- A validated window dict appended by ai_agent.py lines 174-175.
`label` and `reason` hold whatever JSON value `w.get(...) or dflt`
produced. -/
structure TimeWindow where
  start : String
  stop : String
  label : JVal
  score : ℤ
  reason : JVal

/-- ai_agent.py lines 169-176: the validation loop over the (already
truncated) window entries.  A non-dict entry makes `w.get` raise; a
non-parsable score makes `int` raise; an entry whose `start`/`end` do not
have exactly 16 chars with `st < en` is dropped silently. -/
def selectWindows : List JVal → Except Unit (List TimeWindow)
  | [] => .ok []
  | w :: rest =>
    match w with
    | .obj kvs => do
      let sInt ← pyIntOfJVal ((jget kvs "score").getD (.num 0))
      let s : ℤ := max 0 (min 100 sInt)
      let st := (pyStr ((jget kvs "start").getD (.str ""))).data.take 16
      let en := (pyStr ((jget kvs "end").getD (.str ""))).data.take 16
      let tail ← selectWindows rest
      if st.length = 16 ∧ en.length = 16 ∧ lexLt st en then
        .ok (⟨⟨st⟩, ⟨en⟩, pyOr (jget kvs "label") (.str "おすすめ時間帯"), s,
              pyOr (jget kvs "reason_ja") (.str "")⟩ :: tail)
      else
        .ok tail
    | _ => .error ()

/-- Python `res.get("windows") or []` followed by iteration of the sliced
result: a falsy value iterates as `[]`; a truthy non-list cannot be sliced
and iterated as dicts (`str` yields chars without `.get`, other types
raise at the slice), so it raises. -/
def pyWindowsList (v : Option JVal) : Except Unit (List JVal) :=
  match pyOr v (.arr []) with
  | .arr l => .ok l
  | _ => .error ()

/-- ai_agent.py lines 156-176, `_gpt_select_timewindows`: the dog profile
and hourly payload only shape the prompt, so the call is a function of the
scorer outcome.  `res or \x7b\x7d` replaces a falsy parse result by the
empty dict; `.get` on a non-dict raises. -/
def gpt_select_timewindows (llmOut : LLMOutcome) (top_k : ℕ) :
    Except Unit (List TimeWindow) := do
  let res0 ← invoke_json llmOut
  let res := if truthy res0 then res0 else .obj []
  match res with
  | .obj kvs => do
    let ws ← pyWindowsList (jget kvs "windows")
    selectWindows (ws.take top_k)
  | _ => .error ()

/-- ai_agent.py lines 249-255: the two deterministic fallback windows for
the current JST date (`today` abstracts `datetime.now(JST).strftime`). -/
def fallback_windows (today : String) : List TimeWindow :=
  [⟨today ++ " 06:00", today ++ " 08:00", .str "朝の涼しい時間", 75, .str "涼しく風も出やすい"⟩,
   ⟨today ++ " 18:00", today ++ " 20:00", .str "夕方の日射弱め", 70, .str "日射が弱まり路面温度が低下"⟩]

/-- ai_agent.py lines 214-255 and 460-461: the stage of `_tool_recommend`
that fixes the time-window list.  `_gpt_select_timewindows` is called with
`top_k=3`; an exception anywhere inside the `try` body is caught by the
outer handler and re-raised as `RuntimeError("tool内部エラー: ...")`
(the message's exception details are elided); an empty list is replaced by
the fallback windows.  The remainder of `_tool_recommend` only consumes
this list. -/
def tool_recommend_windows (llmOut : LLMOutcome) (today : String) :
    Except String (List TimeWindow) :=
  match gpt_select_timewindows llmOut 3 with
  | .error () => .error "tool内部エラー"
  | .ok tws => .ok (if tws.isEmpty then fallback_windows today else tws)

/-- One entry of `chosen_routes` (ai_agent.py lines 420-430): the fields
the merge and sort read are typed, the rest carried as JSON values. -/
structure ChosenRoute where
  poi : JVal
  geometry : JVal
  polyline : JVal
  distance_m : ℤ
  est_minutes_oneway : ℤ
  poi_kind : String
  environment : List String
  sel_reason : String
  label : JVal

/-- One entry of the list returned by `_gpt_score_routes`
(ai_agent.py lines 207-212). -/
structure ScoreEntry where
  score : ℤ
  reason : JVal

/-- ai_agent.py lines 207-212: the loop over `arr[:len(routes_for_eval)]`
clamping each score to [0,100]; a non-dict entry or unparsable score
raises. -/
def scoreEntries : List JVal → Except Unit (List ScoreEntry)
  | [] => .ok []
  | a :: rest =>
    match a with
    | .obj kvs => do
      let sInt ← pyIntOfJVal ((jget kvs "score").getD (.num 0))
      let tail ← scoreEntries rest
      .ok (⟨max 0 (min 100 sInt), pyOr (jget kvs "reason_ja") (.str "")⟩ :: tail)
    | _ => .error ()

/-- ai_agent.py lines 198-212, `_gpt_score_routes`: a function of the
scorer outcome and of `len(routes_for_eval)`; the output never has more
entries than routes because of the `arr[:len(routes_for_eval)]` slice. -/
def gpt_score_routes (llmOut : LLMOutcome) (n : ℕ) : Except Unit (List ScoreEntry) := do
  let res0 ← invoke_json llmOut
  let res := if truthy res0 then res0 else .obj []
  match res with
  | .obj kvs => do
    let arr ← pyWindowsList (jget kvs "scores")
    scoreEntries (arr.take n)
  | _ => .error ()

/-- An element of `final_routes` (ai_agent.py lines 443-449):
`\x7b**r, "score": ..., "reason": ...\x7d`. -/
structure FinalRoute where
  route : ChosenRoute
  score : ℤ
  reason : String

/-- Python `s.strip(" / ")`: both ends stripped of spaces and slashes. -/
def stripSep (s : String) : String :=
  ⟨((s.data.dropWhile fun c => c = ' ' ∨ c = '/').reverse.dropWhile
      fun c => c = ' ' ∨ c = '/').reverse⟩

/-- ai_agent.py lines 443-449: `for r, s in zip(chosen_routes, scores)` —
positional pairing; `zip` stops at the shorter list. -/
def merge_scores (chosen : List ChosenRoute) (scores : List ScoreEntry) :
    List FinalRoute :=
  (chosen.zip scores).map fun rs =>
    ⟨rs.1, rs.2.score, stripSep (rs.1.sel_reason ++ " / " ++ pyStr rs.2.reason)⟩

/-- The sort key of ai_agent.py line 450, `(-x["score"], x["distance_m"])`,
as a non-strict order on final routes. -/
def finalLE (a b : FinalRoute) : Prop :=
  b.score < a.score ∨ (a.score = b.score ∧ a.route.distance_m ≤ b.route.distance_m)

instance : DecidableRel finalLE := fun a b => by
  rw [finalLE]
  infer_instance

instance : IsTotal FinalRoute finalLE := ⟨by
  intro a b
  rw [finalLE, finalLE]
  omega⟩

instance : IsTrans FinalRoute finalLE := ⟨by
  intro a b c hab hbc
  rw [finalLE] at *
  omega⟩

/-- ai_agent.py line 224: `k = max(1, min(5, k))`. -/
def kClamp (k : ℤ) : ℤ := max 1 (min 5 k)

/-- ai_agent.py lines 450-452: sort `final_routes` by descending score,
ascending distance (stable, see `rank`), then keep the first `k` with `k`
clamped to 1..5 at line 224. -/
def tool_rank_routes (l : List FinalRoute) (k : ℤ) : List FinalRoute :=
  (List.insertionSort finalLE l).take (kClamp k).toNat

/-- Membership of an hourly sample in a window's half-open timestamp
interval [start, stop): `start <= ts` and `ts < stop` in Python string
order. -/
def containsHour (w : Window) (h : HourlyRaw) : Prop :=
  strLt (tsOf h) w.start = false ∧ strLt (tsOf h) w.stop = true

/-- Concrete chosen-route values used by closed witness statements. -/
def sampleChosen : ChosenRoute :=
  ⟨.null, .null, .null, 400, 6, "park", ["grass"], "", .null⟩

def sampleChosen2 : ChosenRoute :=
  ⟨.null, .null, .null, 900, 14, "other", [], "", .null⟩

-- =====================================================================
-- Order facts about the embedded Python string comparison
-- =====================================================================

theorem lexLt_irrefl (l : List Char) : lexLt l l = false := by
  induction l with
  | nil => rfl
  | cons a as ih => simp [lexLt, lt_self_iff_false, ih]

theorem lexLt_asymm : ∀ {a b : List Char}, lexLt a b = true → lexLt b a = false := by
  intro a
  induction a with
  | nil =>
    intro b h
    cases b with
    | nil => simpa [lexLt] using h
    | cons c cs => rfl
  | cons x xs ih =>
    intro b h
    cases b with
    | nil => simp [lexLt] at h
    | cons y ys =>
      rw [lexLt] at h ⊢
      by_cases h1 : x < y
      · have h2 : ¬ y < x := asymm h1
        simp [h1, h2]
      · by_cases h2 : y < x
        · rw [if_neg h1, if_pos h2] at h
          exact absurd h (by simp)
        · rw [if_neg h1, if_neg h2] at h
          rw [if_neg h2, if_neg h1]
          exact ih h

theorem lexLt_trans : ∀ {a b c : List Char},
    lexLt a b = true → lexLt b c = true → lexLt a c = true := by
  intro a
  induction a with
  | nil =>
    intro b c hab hbc
    cases b with
    | nil => simpa [lexLt] using hab
    | cons y ys =>
      cases c with
      | nil => simpa [lexLt] using hbc
      | cons z zs => rfl
  | cons x xs ih =>
    intro b c hab hbc
    cases b with
    | nil => simpa [lexLt] using hab
    | cons y ys =>
      cases c with
      | nil => simpa [lexLt] using hbc
      | cons z zs =>
        rw [lexLt] at hab hbc ⊢
        by_cases hxy : x < y
        · by_cases hyz : y < z
          · have : x < z := lt_trans hxy hyz
            simp [this]
          · by_cases hzy : z < y
            · rw [if_neg hyz, if_pos hzy] at hbc
              exact absurd hbc (by simp)
            · have : y = z := le_antisymm (not_lt.mp hzy) (not_lt.mp hyz)
              subst this
              simp [hxy]
        · by_cases hyx : y < x
          · rw [if_neg hxy, if_pos hyx] at hab
            exact absurd hab (by simp)
          · have hxy' : x = y := le_antisymm (not_lt.mp hyx) (not_lt.mp hxy)
            subst hxy'
            rw [if_neg hxy, if_neg hyx] at hab
            by_cases hyz : x < z
            · simp [hyz]
            · by_cases hzy : z < x
              · rw [if_neg hyz, if_pos hzy] at hbc
                exact absurd hbc (by simp)
              · rw [if_neg hyz, if_neg hzy] at hbc ⊢
                exact ih hab hbc

theorem lexLt_conn : ∀ {a b : List Char},
    lexLt a b = false → lexLt b a = false → a = b := by
  intro a
  induction a with
  | nil =>
    intro b h1 _
    cases b with
    | nil => rfl
    | cons c cs => simp [lexLt] at h1
  | cons x xs ih =>
    intro b h1 h2
    cases b with
    | nil => simp [lexLt] at h2
    | cons y ys =>
      rw [lexLt] at h1 h2
      by_cases hxy : x < y
      · rw [if_pos hxy] at h1
        exact absurd h1 (by simp)
      · by_cases hyx : y < x
        · rw [if_pos hyx] at h2
          exact absurd h2 (by simp)
        · have hx : x = y := le_antisymm (not_lt.mp hyx) (not_lt.mp hxy)
          rw [if_neg hxy, if_neg hyx] at h1
          rw [if_neg hyx, if_neg hxy] at h2
          rw [hx, ih h1 h2]

theorem lexLt_append_left (l : List Char) {a b : List Char}
    (h : lexLt a b = true) : lexLt (l ++ a) (l ++ b) = true := by
  induction l with
  | nil => simpa using h
  | cons c cs ih => simpa [lexLt, lt_self_iff_false] using ih

theorem strLt_irrefl (a : String) : strLt a a = false := lexLt_irrefl a.data

theorem strLt_asymm {a b : String} (h : strLt a b = true) : strLt b a = false :=
  lexLt_asymm h

theorem strLt_trans {a b c : String} (h1 : strLt a b = true) (h2 : strLt b c = true) :
    strLt a c = true :=
  lexLt_trans h1 h2

theorem strLt_conn {a b : String} (h1 : strLt a b = false) (h2 : strLt b a = false) :
    a = b := by
  cases a with
  | mk la =>
    cases b with
    | mk lb =>
      exact congrArg String.mk (lexLt_conn h1 h2)

theorem strLt_append (p : String) {a b : String} (h : strLt a b = true) :
    strLt (p ++ a) (p ++ b) = true :=
  lexLt_append_left p.data h

-- =====================================================================
-- C1 and C2: the fallback coordinator's window stage
-- =====================================================================

/-- C1 (amended): when the external scorer call produces content with no
extractable JSON object, `_invoke_json` returns the empty dict and the
coordinator proceeds normally to the deterministic fallback; but when the
call raises (timeout or any raised error) or the extracted text fails
`json.loads`, the exception propagates to `_tool_recommend`'s handler and
is re-raised to the caller as a `RuntimeError` — it is not converted into
the fallback output. -/
theorem thm_C1_scorer_failure_behaviour (today : String) :
    tool_recommend_windows LLMOutcome.raised today = .error "tool内部エラー" ∧
    tool_recommend_windows LLMOutcome.badJson today = .error "tool内部エラー" ∧
    tool_recommend_windows LLMOutcome.noJson today = .ok (fallback_windows today) :=
  ⟨rfl, rfl, rfl⟩

/-- C1 counterexample: a scorer call that raises (e.g. a timeout) makes
the coordinator raise `RuntimeError` to the caller instead of returning
the fallback windows, contradicting the claim that an exception of any
kind is treated as zero usable windows and never raised. -/
theorem cex_C1_raised_scorer_raises_to_caller :
    tool_recommend_windows LLMOutcome.raised "2026-02-03" = .error "tool内部エラー" ∧
    tool_recommend_windows LLMOutcome.raised "2026-02-03" ≠
      .ok (fallback_windows "2026-02-03") :=
  ⟨rfl, fun h => Except.noConfusion h⟩

/-- C2: whenever validation of the scorer's window output yields zero
usable windows, the coordinator's window list is exactly the two
deterministic fallback windows anchored to the current date: a morning
interval (06:00-08:00, score 75) and an evening interval (18:00-20:00,
score 70), each non-empty, the morning one ending strictly before the
evening one starts. -/
theorem thm_C2_zero_windows_fallback (llmOut : LLMOutcome) (today : String)
    (h : gpt_select_timewindows llmOut 3 = .ok []) :
    tool_recommend_windows llmOut today = .ok (fallback_windows today) ∧
    (fallback_windows today).length = 2 ∧
    (fallback_windows today).map TimeWindow.score = [75, 70] ∧
    (fallback_windows today).map TimeWindow.start = [today ++ " 06:00", today ++ " 18:00"] ∧
    (fallback_windows today).map TimeWindow.stop = [today ++ " 08:00", today ++ " 20:00"] ∧
    strLt (today ++ " 08:00") (today ++ " 18:00") = true ∧
    strLt (today ++ " 06:00") (today ++ " 08:00") = true ∧
    strLt (today ++ " 18:00") (today ++ " 20:00") = true := by
  refine ⟨?_, rfl, rfl, rfl, rfl, ?_, ?_, ?_⟩
  · rw [tool_recommend_windows, h]
    rfl
  · exact strLt_append today (by decide)
  · exact strLt_append today (by decide)
  · exact strLt_append today (by decide)

/-- C2 witness: a scorer response without any JSON object yields zero
usable windows, and the coordinator returns the two fallback windows. -/
theorem wit_C2_zero_windows_fallback :
    tool_recommend_windows LLMOutcome.noJson "2026-02-03" =
      .ok (fallback_windows "2026-02-03") :=
  (thm_C2_zero_windows_fallback LLMOutcome.noJson "2026-02-03" rfl).1

-- =====================================================================
-- C3: the default route score
-- =====================================================================

/-- C3 counterexample: a park route with `distance_m = 0` scores 69, not
the claimed 70 — the code clamps the distance below by 1
(`max(1, ...)`) and truncates (`int`) instead of rounding. -/
theorem cex_C3_park_at_zero_is_69 :
    score_route (some "park") (some 0) = 69 ∧ (69 : ℤ) ≠ 70 := by
  constructor
  · have hne1 : ("park" : String) ≠ "footway" := by decide
    have hne2 : ("park" : String) ≠ "path" := by decide
    simp only [score_route, Option.getD_some, if_pos rfl, hne1, hne2, or_self, if_false]
    have hm : (max 1 (0 : ℤ)) = 1 := by decide
    rw [hm]
    have hmin : min ((1 : ℤ) : ℚ) 1500 = 1 := by
      rw [min_eq_left (by norm_num : ((1 : ℤ) : ℚ) ≤ 1500)]
      norm_num
    rw [hmin]
    have ht : pytrunc ((40 : ℚ) * (1500 - 1) / 1500) = 39 := by
      rw [pytrunc, if_pos (by norm_num)]
      norm_num
    rw [ht]
    decide
  · decide

/-- C3 (amended): the default route score is `base + distance_score` with
`base` as claimed (30 for a park, 15 for a footway/path, else 0), but the
distance is first clamped below by 1 (a missing distance defaults to
1000), and the distance bonus truncates instead of rounding:
`distance_score = max(0, int(40 * (1500 - min(max(1, d), 1500)) / 1500))`.
In particular a park route at distance 0 scores 69 (not 70), a route of
another kind at 1500 m scores 0, and the park route still ranks first. -/
theorem thm_C3_default_scoring :
    (∀ (kind : String) (d : ℤ),
        score_route (some kind) (some d) =
          ((if kind = "park" then (30 : ℤ) else 0) +
            (if kind = "footway" ∨ kind = "path" then 15 else 0)) +
            max 0 (pytrunc ((40 : ℚ) * (1500 - min ((max 1 d : ℤ) : ℚ) 1500) / 1500))) ∧
    score_route (some "park") (some 0) = 69 ∧
    score_route (some "other") (some 1500) = 0 ∧
    rank [⟨0, 1500, "other-route"⟩, ⟨69, 0, "park-route"⟩] 3 =
      [⟨69, 0, "park-route"⟩, ⟨0, 1500, "other-route"⟩] := by
  refine ⟨fun kind d => rfl, cex_C3_park_at_zero_is_69.1, ?_, by decide⟩
  · have hne0 : ("other" : String) ≠ "park" := by decide
    have hne1 : ("other" : String) ≠ "footway" := by decide
    have hne2 : ("other" : String) ≠ "path" := by decide
    simp only [score_route, Option.getD_some, hne0, hne1, hne2, or_self, if_false]
    have hm : (max 1 (1500 : ℤ)) = 1500 := by decide
    rw [hm]
    have hmin : min ((1500 : ℤ) : ℚ) 1500 = 1500 := by
      rw [min_eq_left (by norm_num : ((1500 : ℤ) : ℚ) ≤ 1500)]
      norm_num
    rw [hmin]
    have ht : pytrunc ((40 : ℚ) * (1500 - 1500) / 1500) = 0 := by
      rw [pytrunc, if_pos (by norm_num)]
      norm_num
    rw [ht]
    decide

-- =====================================================================
-- C4: the hourly comfort score
-- =====================================================================

/-- C4 counterexample: the code truncates where the claim's formula
rounds.  For threshold 24 and the sample with temp 23.75 (so
`delta * 6 = 1.5`), wind 1 and humidity 50 at 18:00 local, the code's
`_hourly_score` gives 50 + int(1.5) = 51 while the claimed formula gives
50 + round(1.5) = 52. -/
theorem cex_C4_trunc_vs_round :
    hourly_score 24 ⟨"2026-02-03T18:00", 95/4, 50, 1⟩ = 51 ∧
    spec_hourly_score 24 ⟨"2026-02-03T18:00", 95/4, 50, 1⟩ = 52 ∧
    (51 : ℤ) ≠ 52 := by
  have hhour : hourOf "2026-02-03T18:00" = 18 := by decide
  have hsurf : t_surf ⟨"2026-02-03T18:00", 95/4, 50, 1⟩ = 95/4 := by
    rw [t_surf, hhour]
    norm_num
  have hdelta : (24 : ℚ) - 95/4 = 1/4 := by norm_num
  refine ⟨?_, ?_, by decide⟩
  · rw [hourly_score, hsurf, hdelta]
    have ht : pytrunc ((1/4 : ℚ) * 6) = 1 := by
      rw [pytrunc, if_pos (by norm_num)]
      rw [show ((1/4 : ℚ) * 6) = 3/2 by norm_num]
      norm_num
    rw [ht]
    norm_num
  · rw [spec_hourly_score, hsurf, hdelta]
    have ht : pyround ((1/4 : ℚ) * 6) = 2 := by
      rw [show ((1/4 : ℚ) * 6) = 3/2 by norm_num]
      rw [pyround]
      rw [show ⌊(3/2 : ℚ)⌋ = 1 by norm_num]
      norm_num
    rw [ht]
    norm_num

/-- C4 (amended): the comfort score is
`clamp(0, 100, 50 + int((threshold - apparent) * 6) + wind penalty +
humidity penalty)` where `int` truncates toward zero (not `round`), the
wind penalty is -5 for wind < 0.5 else -3 for wind > 6, and the humidity
penalty is `-int((rh - 75) / 2)` only for rh > 75.  The claim's concrete
example still scores 67, since int(2.5) = round(2.5) = 2. -/
theorem thm_C4_hourly_score_formula :
    (∀ (thr : ℚ) (h : HourlyRaw),
        hourly_score thr h =
          max 0 (min 100 ((50 + pytrunc ((thr - t_surf h) * 6))
            + (if h.wind < 1/2 then -5 else if 6 < h.wind then -3 else 0)
            + (if 75 < h.rh then -(pytrunc ((h.rh - 75) / 2)) else 0)))) ∧
    hourly_score 24 ⟨"2026-02-03T18:00", 20, 80, 3/10⟩ = 67 := by
  constructor
  · intro thr h
    rw [hourly_score]
    split_ifs <;> omega
  · have hhour : hourOf "2026-02-03T18:00" = 18 := by decide
    have hsurf : t_surf ⟨"2026-02-03T18:00", 20, 80, 3/10⟩ = 20 := by
      rw [t_surf, hhour]
      norm_num
    rw [hourly_score, hsurf]
    have ht : pytrunc (((24 : ℚ) - 20) * 6) = 24 := by
      rw [pytrunc, if_pos (by norm_num)]
      norm_num
    rw [ht]
    rw [if_pos (by norm_num : (3/10 : ℚ) < 1/2), if_pos (by norm_num : (75 : ℚ) < 80)]
    have h2 : pytrunc (((80 : ℚ) - 75) / 2) = 2 := by
      rw [pytrunc, if_pos (by norm_num)]
      norm_num
    rw [h2]
    decide

-- =====================================================================
-- C8: ranking and input order
-- =====================================================================

/-- C8 counterexample: two distinct routes with the same score and the
same distance.  The two input orders are permutations of each other, yet
ranking preserves the input order of the tied pair (the sort is stable),
so the two output sequences differ — the claimed input-order independence
fails on tied keys. -/
theorem cex_C8_equal_key_tie :
    List.Perm [(⟨50, 100, "A"⟩ : ScoredRoute), ⟨50, 100, "B"⟩]
      [⟨50, 100, "B"⟩, ⟨50, 100, "A"⟩] ∧
    rank [⟨50, 100, "A"⟩, ⟨50, 100, "B"⟩] 3 = [⟨50, 100, "A"⟩, ⟨50, 100, "B"⟩] ∧
    rank [⟨50, 100, "B"⟩, ⟨50, 100, "A"⟩] 3 = [⟨50, 100, "B"⟩, ⟨50, 100, "A"⟩] ∧
    ([(⟨50, 100, "A"⟩ : ScoredRoute), ⟨50, 100, "B"⟩] : List ScoredRoute) ≠
      [⟨50, 100, "B"⟩, ⟨50, 100, "A"⟩] := by
  refine ⟨?_, ?_, ?_, ?_⟩ <;> decide

/-- C8 (amended): ranking (sort by descending score, ties by ascending
distance, truncate to k) yields the same output sequence on every
permutation of the input, provided no two distinct routes share both
score and distance_m; with fully tied keys the output follows the input
order (stable sort), as the counterexample shows. -/
theorem thm_C8_rank_order_invariant (l₁ l₂ : List ScoredRoute) (k : ℕ)
    (hperm : List.Perm l₁ l₂)
    (hkeys : List.Pairwise
      (fun a b => (a.score, a.distance_m) ≠ (b.score, b.distance_m)) l₁) :
    rank l₁ k = rank l₂ k := by
  have hs₁ : List.Sorted rankLE (List.insertionSort rankLE l₁) :=
    List.sorted_insertionSort rankLE l₁
  have hs₂ : List.Sorted rankLE (List.insertionSort rankLE l₂) :=
    List.sorted_insertionSort rankLE l₂
  have hp : List.Perm (List.insertionSort rankLE l₁) (List.insertionSort rankLE l₂) :=
    ((List.perm_insertionSort rankLE l₁).trans hperm).trans
      (List.perm_insertionSort rankLE l₂).symm
  have hkeys₁ : List.Pairwise
      (fun a b => (a.score, a.distance_m) ≠ (b.score, b.distance_m))
      (List.insertionSort rankLE l₁) :=
    ((List.perm_insertionSort rankLE l₁).pairwise_iff
      (fun h hn => h hn.symm)).mpr hkeys
  have hkeys₂ : List.Pairwise
      (fun a b => (a.score, a.distance_m) ≠ (b.score, b.distance_m))
      (List.insertionSort rankLE l₂) :=
    (hp.pairwise_iff (fun h hn => h hn.symm)).mp hkeys₁
  have hS₁ : List.Sorted rankS (List.insertionSort rankLE l₁) :=
    (hs₁.and hkeys₁).imp fun hh => hh
  have hS₂ : List.Sorted rankS (List.insertionSort rankLE l₂) :=
    (hs₂.and hkeys₂).imp fun hh => hh
  have heq : List.insertionSort rankLE l₁ = List.insertionSort rankLE l₂ :=
    List.eq_of_perm_of_sorted hp hS₁ hS₂
  rw [rank, rank, heq]

/-- C8 witness: with pairwise distinct keys, two permuted inputs rank to
the same output. -/
theorem wit_C8_distinct_keys :
    rank [(⟨2, 0, "x"⟩ : ScoredRoute), ⟨1, 0, "y"⟩] 2 =
      rank [(⟨1, 0, "y"⟩ : ScoredRoute), ⟨2, 0, "x"⟩] 2 :=
  thm_C8_rank_order_invariant _ _ 2 (by decide) (by decide)

-- =====================================================================
-- C9: the weather normalizer's horizon
-- =====================================================================

theorem wxRows_length (js : WxResponse) :
    ∀ (l : List String) (i : ℕ) (out : List HourlyRaw),
      wxRows js i l = .ok out → out.length = l.length := by
  intro l
  induction l with
  | nil =>
    intro i out h
    rw [wxRows] at h
    cases h
    rfl
  | cons t rest ih =>
    intro i out h
    rw [wxRows] at h
    rcases e1 : pyIndex js.temperature_2m i with u | temp <;> rw [e1] at h
    · exact absurd h (by simp [Bind.bind, Except.bind])
    rcases e2 : pyIndex js.relative_humidity_2m i with u | rh <;> rw [e2] at h
    · exact absurd h (by simp [Bind.bind, Except.bind])
    rcases e3 : pyIndex js.wind_speed_10m i with u | wind <;> rw [e3] at h
    · exact absurd h (by simp [Bind.bind, Except.bind])
    rcases e4 : wxRows js (i + 1) rest with u | tail <;> rw [e4] at h
    · exact absurd h (by simp [Bind.bind, Except.bind])
    simp only [Bind.bind, Except.bind, Except.ok.injEq] at h
    rw [← h]
    simp [ih (i + 1) tail e4]

/-- C9 counterexample: a source with 30 usable records, fetched without
specifying the horizon, yields 24 samples — not the 30 that truncation to
a default horizon of 48 would give. -/
theorem cex_C9_default_is_24 :
    (get_hourly_weather_default
        ⟨List.replicate 30 "t", List.replicate 30 20, List.replicate 30 50,
          List.replicate 30 2⟩).map List.length = .ok 24 ∧
    (24 : ℕ) ≠ min 30 48 := by
  constructor
  · rfl
  · decide

/-- C9 (amended): the normalizer returns the ordered samples truncated to
the `hours` parameter, whose default is 24 (not 48): on success the output
length is `min (number of records) hours`, and a call without the horizon
argument yields at most 24 samples. -/
theorem thm_C9_weather_horizon (js : WxResponse) (hours : ℕ)
    (out out' : List HourlyRaw) :
    (get_hourly_weather js hours = .ok out →
      out.length = min js.time.length hours) ∧
    (get_hourly_weather_default js = .ok out' →
      out'.length = min js.time.length 24 ∧ out'.length ≤ 24) := by
  have main : ∀ (hs : ℕ) (o : List HourlyRaw),
      get_hourly_weather js hs = .ok o → o.length = min js.time.length hs := by
    intro hs o h
    rw [get_hourly_weather] at h
    rcases e : wxRows js 0 js.time with u | rows <;> rw [e] at h
    · exact absurd h (by simp [Except.map])
    simp only [Except.map, Except.ok.injEq] at h
    rw [← h, List.length_take, wxRows_length js js.time 0 rows e, Nat.min_comm]
  refine ⟨main hours out, fun h => ?_⟩
  have := main 24 out' h
  exact ⟨this, by omega⟩

/-- C9 witness: on a 30-record source with an explicit horizon of 10 the
normalizer returns min 30 10 = 10 samples, and the default call returns
at most 24. -/
theorem wit_C9_weather_horizon :
    (get_hourly_weather
        ⟨List.replicate 30 "t", List.replicate 30 20, List.replicate 30 50,
          List.replicate 30 2⟩ 10).map List.length = .ok (min 30 10) := by
  rfl

-- =====================================================================
-- C10: short score lists drop routes positionally
-- =====================================================================

theorem scoreEntries_length :
    ∀ (l : List JVal) (out : List ScoreEntry),
      scoreEntries l = .ok out → out.length = l.length := by
  intro l
  induction l with
  | nil =>
    intro out h
    rw [scoreEntries] at h
    cases h
    rfl
  | cons a rest ih =>
    intro out h
    cases a with
    | null => simp [scoreEntries] at h
    | bool b => simp [scoreEntries] at h
    | num q => simp [scoreEntries] at h
    | str s => simp [scoreEntries] at h
    | arr elems => simp [scoreEntries] at h
    | obj kvs =>
      simp only [scoreEntries] at h
      rcases e1 : pyIntOfJVal ((jget kvs "score").getD (.num 0)) with u | sInt <;>
        rw [e1] at h
      · exact absurd h (by simp [Bind.bind, Except.bind])
      rcases e2 : scoreEntries rest with u | tail <;> rw [e2] at h
      · exact absurd h (by simp [Bind.bind, Except.bind])
      simp only [Bind.bind, Except.bind, Except.ok.injEq] at h
      rw [← h]
      simp [ih tail e2]

/-- C10: when the final route scorer returns fewer score entries than
there are fetched routes, the merge pairs routes with scores positionally
(`zip` stops at the shorter list): the merged list has exactly one entry
per score, every ranked output element is the pairing of route i with
score i for some i below the score count — so the routes beyond the last
score get no default score and are absent from the result — and the
scorer's own output never exceeds the number of routes sent for
evaluation. -/
theorem thm_C10_short_scores_drop (chosen : List ChosenRoute)
    (scores : List ScoreEntry) (k : ℤ)
    (hlt : scores.length < chosen.length) :
    (merge_scores chosen scores).length = scores.length ∧
    (∀ f ∈ tool_rank_routes (merge_scores chosen scores) k,
      ∃ i : ℕ, ∃ hi : i < scores.length, ∃ hc : i < chosen.length,
        f.route = chosen.get ⟨i, hc⟩ ∧ f.score = (scores.get ⟨i, hi⟩).score) ∧
    (∀ (llmOut : LLMOutcome) (n : ℕ) (out : List ScoreEntry),
      gpt_score_routes llmOut n = .ok out → out.length ≤ n) := by
  have hzlen : (chosen.zip scores).length = scores.length := by
    rw [List.length_zip]
    omega
  refine ⟨?_, ?_, ?_⟩
  · rw [merge_scores, List.length_map, hzlen]
  · intro f hf
    have hf1 : f ∈ List.insertionSort finalLE (merge_scores chosen scores) :=
      List.take_subset _ _ hf
    have hf2 : f ∈ merge_scores chosen scores :=
      (List.Perm.mem_iff (List.perm_insertionSort finalLE _)).mp hf1
    rw [merge_scores, List.mem_map] at hf2
    rcases hf2 with ⟨rs, hrs, hfeq⟩
    rw [List.mem_iff_get] at hrs
    rcases hrs with ⟨n, hn⟩
    have hn2 : (n : ℕ) < scores.length := by
      have := n.isLt
      omega
    have hc2 : (n : ℕ) < chosen.length := lt_trans hn2 hlt
    refine ⟨n, hn2, hc2, ?_, ?_⟩
    · rw [← hfeq]
      have := @List.get_zip _ _ chosen scores n
      rw [hn] at this
      simp only [this]
    · rw [← hfeq]
      have := @List.get_zip _ _ chosen scores n
      rw [hn] at this
      simp only [this]
  · intro llmOut n out h
    rw [gpt_score_routes] at h
    rcases hr : invoke_json llmOut with u | v0 <;> rw [hr] at h
    · exact absurd h (by simp [Bind.bind, Except.bind])
    simp only [Bind.bind, Except.bind] at h
    rcases hres : (if truthy v0 then v0 else JVal.obj []) with _ | b | q | s | elems | kvs <;>
      rw [hres] at h
    · exact absurd h (by simp)
    · exact absurd h (by simp)
    · exact absurd h (by simp)
    · exact absurd h (by simp)
    · exact absurd h (by simp)
    dsimp only at h
    rcases hw : pyWindowsList (jget kvs "scores") with u | arr <;> rw [hw] at h
    · exact absurd h (by simp)
    rw [scoreEntries_length _ _ h, List.length_take]
    exact Nat.min_le_left _ _

/-- C10 witness: two fetched routes, one score entry — the merged and
ranked output pairs only the first route with the only score. -/
theorem wit_C10_short_scores_drop :
    ([(⟨60, .null⟩ : ScoreEntry)] : List ScoreEntry).length <
      ([sampleChosen, sampleChosen2] : List ChosenRoute).length ∧
    (merge_scores [sampleChosen, sampleChosen2] [⟨60, .null⟩]).length = 1 :=
  ⟨by decide,
    (thm_C10_short_scores_drop [sampleChosen, sampleChosen2] [⟨60, .null⟩] 3
      (by decide)).1⟩

-- =====================================================================
-- Structural lemmas about the window scan (recommend.py lines 19-34)
-- =====================================================================

theorem strLe_of_not_lt {a b : String} (h : strLt a b = false) :
    b = a ∨ strLt b a = true := by
  cases hlt : strLt b a with
  | true => exact Or.inr rfl
  | false => exact Or.inl (strLt_conn hlt h)

/-- Every window's start is the open accumulator or the (replaced)
timestamp of a safe sample of the scanned suffix. -/
theorem scanW_start_src (lastTs : String) (thr : ℚ) :
    ∀ (l : List HourlyRaw) (cur : Option String) (w : Window),
      w ∈ scanW lastTs thr l cur →
      (∃ s, cur = some s ∧ w.start = s) ∨
        ∃ h ∈ l, isSafe thr h = true ∧ w.start = tsOf h := by
  intro l
  induction l with
  | nil =>
    intro cur w hw
    cases cur with
    | none => simp [scanW] at hw
    | some s =>
      simp only [scanW, List.mem_singleton] at hw
      exact Or.inl ⟨s, rfl, by rw [hw]⟩
  | cons h t ih =>
    intro cur w hw
    cases hs : isSafe thr h with
    | true =>
      cases cur with
      | none =>
        rw [scanW, hs] at hw
        rcases ih (some (tsOf h)) w hw with ⟨s, hseq, hws⟩ | ⟨h', hh', hsafe', hws⟩
        · rcases Option.some.injEq _ _ ▸ hseq with hseq'
          exact Or.inr ⟨h, List.mem_cons_self h t, hs, by rw [hws, ← Option.some.inj hseq]⟩
        · exact Or.inr ⟨h', List.mem_cons_of_mem h hh', hsafe', hws⟩
      | some s =>
        rw [scanW, hs] at hw
        rcases ih (some s) w hw with ⟨s', hseq, hws⟩ | ⟨h', hh', hsafe', hws⟩
        · exact Or.inl ⟨s, rfl, by rw [hws, ← Option.some.inj hseq]⟩
        · exact Or.inr ⟨h', List.mem_cons_of_mem h hh', hsafe', hws⟩
    | false =>
      cases cur with
      | none =>
        rw [scanW, hs] at hw
        rcases ih none w hw with ⟨s, hseq, _⟩ | ⟨h', hh', hsafe', hws⟩
        · exact Option.noConfusion hseq
        · exact Or.inr ⟨h', List.mem_cons_of_mem h hh', hsafe', hws⟩
      | some s =>
        rw [scanW, hs] at hw
        rcases List.mem_cons.mp hw with hweq | hwrest
        · exact Or.inl ⟨s, rfl, by rw [hweq]⟩
        · rcases ih none w hwrest with ⟨s', hseq, _⟩ | ⟨h', hh', hsafe', hws⟩
          · exact Option.noConfusion hseq
          · exact Or.inr ⟨h', List.mem_cons_of_mem h hh', hsafe', hws⟩

/-- Every window's stop is the final timestamp or the (replaced)
timestamp of a non-safe sample of the scanned suffix. -/
theorem scanW_stop_src (lastTs : String) (thr : ℚ) :
    ∀ (l : List HourlyRaw) (cur : Option String) (w : Window),
      w ∈ scanW lastTs thr l cur →
      w.stop = lastTs ∨ ∃ h ∈ l, isSafe thr h = false ∧ w.stop = tsOf h := by
  intro l
  induction l with
  | nil =>
    intro cur w hw
    cases cur with
    | none => simp [scanW] at hw
    | some s =>
      simp only [scanW, List.mem_singleton] at hw
      exact Or.inl (by rw [hw])
  | cons h t ih =>
    intro cur w hw
    cases hs : isSafe thr h with
    | true =>
      cases cur with
      | none =>
        rw [scanW, hs] at hw
        rcases ih (some (tsOf h)) w hw with hl | ⟨h', hh', hu', hws⟩
        · exact Or.inl hl
        · exact Or.inr ⟨h', List.mem_cons_of_mem h hh', hu', hws⟩
      | some s =>
        rw [scanW, hs] at hw
        rcases ih (some s) w hw with hl | ⟨h', hh', hu', hws⟩
        · exact Or.inl hl
        · exact Or.inr ⟨h', List.mem_cons_of_mem h hh', hu', hws⟩
    | false =>
      cases cur with
      | none =>
        rw [scanW, hs] at hw
        rcases ih none w hw with hl | ⟨h', hh', hu', hws⟩
        · exact Or.inl hl
        · exact Or.inr ⟨h', List.mem_cons_of_mem h hh', hu', hws⟩
      | some s =>
        rw [scanW, hs] at hw
        rcases List.mem_cons.mp hw with hweq | hwrest
        · exact Or.inr ⟨h, List.mem_cons_self h t, hs, by rw [hweq]⟩
        · rcases ih none w hwrest with hl | ⟨h', hh', hu', hws⟩
          · exact Or.inl hl
          · exact Or.inr ⟨h', List.mem_cons_of_mem h hh', hu', hws⟩

/-- Every window satisfies start < stop, except one opened at the final
timestamp, for which start = stop = final timestamp. -/
theorem scanW_bounds (lastTs : String) (thr : ℚ) :
    ∀ (l : List HourlyRaw) (cur : Option String),
      List.Pairwise (fun a b => strLt (tsOf a) (tsOf b) = true) l →
      (∀ s, cur = some s → (∀ h ∈ l, strLt s (tsOf h) = true) ∧
        (s = lastTs ∨ strLt s lastTs = true)) →
      (∀ h ∈ l, tsOf h = lastTs ∨ strLt (tsOf h) lastTs = true) →
      ∀ w ∈ scanW lastTs thr l cur,
        strLt w.start w.stop = true ∨ (w.start = w.stop ∧ w.stop = lastTs) := by
  intro l
  induction l with
  | nil =>
    intro cur hord hcur hlast w hw
    cases cur with
    | none => simp [scanW] at hw
    | some s =>
      simp only [scanW, List.mem_singleton] at hw
      rcases (hcur s rfl).2 with heq | hlt
      · exact Or.inr (by rw [hw, heq]; exact ⟨rfl, rfl⟩)
      · exact Or.inl (by rw [hw]; exact hlt)
  | cons h t ih =>
    intro cur hord hcur hlast w hw
    have hordt := List.pairwise_cons.mp hord
    have hlastt : ∀ h' ∈ t, tsOf h' = lastTs ∨ strLt (tsOf h') lastTs = true :=
      fun h' hm => hlast h' (List.mem_cons_of_mem h hm)
    cases hs : isSafe thr h with
    | true =>
      cases cur with
      | none =>
        rw [scanW, hs] at hw
        refine ih (some (tsOf h)) hordt.2 ?_ hlastt w hw
        intro s hseq
        rw [← Option.some.inj hseq]
        exact ⟨hordt.1, hlast h (List.mem_cons_self h t)⟩
      | some s =>
        rw [scanW, hs] at hw
        refine ih (some s) hordt.2 ?_ hlastt w hw
        intro s' hseq
        rw [← Option.some.inj hseq]
        exact ⟨fun h' hm => (hcur s rfl).1 h' (List.mem_cons_of_mem h hm), (hcur s rfl).2⟩
    | false =>
      cases cur with
      | none =>
        rw [scanW, hs] at hw
        exact ih none hordt.2 (fun s hseq => Option.noConfusion hseq) hlastt w hw
      | some s =>
        rw [scanW, hs] at hw
        rcases List.mem_cons.mp hw with hweq | hwrest
        · exact Or.inl (by rw [hweq]; exact (hcur s rfl).1 h (List.mem_cons_self h t))
        · exact ih none hordt.2 (fun s' hseq => Option.noConfusion hseq) hlastt w hwrest

/-- Consecutive windows are separated: each closes strictly before the
next one opens. -/
theorem scanW_chain (lastTs : String) (thr : ℚ) :
    ∀ (l : List HourlyRaw) (cur : Option String),
      List.Pairwise (fun a b => strLt (tsOf a) (tsOf b) = true) l →
      List.Chain' (fun a b => strLt a.stop b.start = true) (scanW lastTs thr l cur) := by
  intro l
  induction l with
  | nil =>
    intro cur _
    cases cur with
    | none => simp [scanW]
    | some s => simp [scanW]
  | cons h t ih =>
    intro cur hord
    have hordt := List.pairwise_cons.mp hord
    cases hs : isSafe thr h with
    | true =>
      cases cur with
      | none =>
        rw [scanW, hs]
        exact ih (some (tsOf h)) hordt.2
      | some s =>
        rw [scanW, hs]
        exact ih (some s) hordt.2
    | false =>
      cases cur with
      | none =>
        rw [scanW, hs]
        exact ih none hordt.2
      | some s =>
        rw [scanW, hs]
        refine List.chain'_cons'.mpr ⟨?_, ih none hordt.2⟩
        intro y hy
        have hym : y ∈ scanW lastTs thr t none := List.mem_of_mem_head? hy
        rcases scanW_start_src lastTs thr t none y hym with ⟨s', hseq, _⟩ | ⟨h', hh', hs', hys⟩
        · exact Option.noConfusion hseq
        · rw [hys]
          exact hordt.1 h' hh'

/-- No window's [start, stop) interval contains a non-safe sample of the
whole input.  `l` is the still-unscanned suffix; the two accumulator
hypotheses say every not-yet-dominated non-safe sample still lies ahead. -/
theorem scanW_no_unsafe (lastTs : String) (thr : ℚ) (L : List HourlyRaw) :
    ∀ (l : List HourlyRaw) (cur : Option String),
      List.Pairwise (fun a b => strLt (tsOf a) (tsOf b) = true) l →
      (∀ s, cur = some s → ∀ h' ∈ L, isSafe thr h' = false →
        strLt (tsOf h') s = false → h' ∈ l) →
      (∀ h' ∈ L, isSafe thr h' = false →
        ∀ hk ∈ l, strLt (tsOf h') (tsOf hk) = false → h' ∈ l) →
      ∀ w ∈ scanW lastTs thr l cur, ∀ h' ∈ L, isSafe thr h' = false →
        ¬ (strLt (tsOf h') w.start = false ∧ strLt (tsOf h') w.stop = true) := by
  intro l
  induction l with
  | nil =>
    intro cur hord hcur hglob w hw h' hm hu hc
    cases cur with
    | none => simp [scanW] at hw
    | some s =>
      simp only [scanW, List.mem_singleton] at hw
      have : h' ∈ ([] : List HourlyRaw) := by
        rw [hw] at hc
        exact hcur s rfl h' hm hu hc.1
      simp at this
  | cons h t ih =>
    intro cur hord hcur hglob w hw h' hm hu
    have hordt := List.pairwise_cons.mp hord
    have hglobt : ∀ h'' ∈ L, isSafe thr h'' = false →
        ∀ hk ∈ t, strLt (tsOf h'') (tsOf hk) = false → h'' ∈ t := by
      intro h'' hm'' hu'' hk hkm hlt
      rcases List.mem_cons.mp
          (hglob h'' hm'' hu'' hk (List.mem_cons_of_mem h hkm) hlt) with heq | hmem
      · exfalso
        have hhk := hordt.1 hk hkm
        rw [heq] at hlt
        rw [hlt] at hhk
        exact Bool.noConfusion hhk
      · exact hmem
    cases hs : isSafe thr h with
    | true =>
      have hne : ∀ h'' ∈ L, isSafe thr h'' = false → h'' ∈ h :: t → h'' ∈ t := by
        intro h'' _ hu'' hmem
        rcases List.mem_cons.mp hmem with heq | hmem'
        · rw [heq] at hu''
          rw [hs] at hu''
          exact Bool.noConfusion hu''
        · exact hmem'
      have hglobt' : ∀ h'' ∈ L, isSafe thr h'' = false →
          ∀ hk ∈ t, strLt (tsOf h'') (tsOf hk) = false → h'' ∈ t := hglobt
      cases cur with
      | none =>
        rw [scanW, hs] at hw
        refine ih (some (tsOf h)) hordt.2 ?_ hglobt' w hw h' hm hu
        intro s hseq h'' hm'' hu'' hlt
        rw [← Option.some.inj hseq] at hlt
        exact hne h'' hm'' hu''
          (hglob h'' hm'' hu'' h (List.mem_cons_self h t) hlt)
      | some s =>
        rw [scanW, hs] at hw
        refine ih (some s) hordt.2 ?_ hglobt' w hw h' hm hu
        intro s' hseq h'' hm'' hu'' hlt
        rw [← Option.some.inj hseq] at hlt
        exact hne h'' hm'' hu'' (hcur s rfl h'' hm'' hu'' hlt)
    | false =>
      cases cur with
      | none =>
        rw [scanW, hs] at hw
        exact ih none hordt.2 (fun s hseq => Option.noConfusion hseq) hglobt w hw h' hm hu
      | some s =>
        rw [scanW, hs] at hw
        rcases List.mem_cons.mp hw with hweq | hwrest
        · intro hc
          rw [hweq] at hc
          rcases List.mem_cons.mp (hcur s rfl h' hm hu hc.1) with heq | hmem
          · rw [heq] at hc
            have := hc.2
            rw [strLt_irrefl] at this
            exact Bool.noConfusion this
          · have h1 := hordt.1 h' hmem
            have h2 := strLt_asymm h1
            have := hc.2
            rw [this] at h2
            exact Bool.noConfusion h2
        · exact ih none hordt.2 (fun s' hseq => Option.noConfusion hseq) hglobt
            w hwrest h' hm hu

/-- A chain of separated windows whose elements are non-empty-or-point
intervals is pairwise separated. -/
theorem window_chain_pairwise :
    ∀ (ws : List Window),
      List.Chain' (fun a b => strLt a.stop b.start = true) ws →
      (∀ w ∈ ws, strLt w.start w.stop = true ∨ w.start = w.stop) →
      List.Pairwise (fun a b => strLt a.stop b.start = true) ws := by
  intro ws
  induction ws with
  | nil => intro _ _; exact List.Pairwise.nil
  | cons w rest ih =>
    intro hch hb
    rcases List.chain'_cons'.mp hch with ⟨hhead, hrest⟩
    have hp := ih hrest fun w' hw' => hb w' (List.mem_cons_of_mem _ hw')
    refine List.Pairwise.cons ?_ hp
    intro y hy
    cases rest with
    | nil => exact absurd hy (List.not_mem_nil y)
    | cons r rs =>
      have hwr : strLt w.stop r.start = true := hhead r rfl
      rcases List.mem_cons.mp hy with heq | hy'
      · rw [heq]
        exact hwr
      · have hpr : strLt r.stop y.start = true := (List.pairwise_cons.mp hp).1 y hy'
        rcases hb r (List.mem_cons_of_mem _ (List.mem_cons_self r rs)) with h1 | h1
        · exact strLt_trans hwr (strLt_trans h1 hpr)
        · rw [h1] at hwr
          exact strLt_trans hwr hpr

/-- Two distinct members of a pairwise-related list are related one way
or the other. -/
theorem pairwise_rel_of_mem {α : Type} {P : α → α → Prop} :
    ∀ (l : List α), List.Pairwise P l →
      ∀ a ∈ l, ∀ b ∈ l, a ≠ b → P a b ∨ P b a := by
  intro l
  induction l with
  | nil => intro _ a ha; exact absurd ha (List.not_mem_nil a)
  | cons x rest ih =>
    intro hp a ha b hb hne
    rcases List.pairwise_cons.mp hp with ⟨hx, hrest⟩
    rcases List.mem_cons.mp ha with ha' | ha'
    · rcases List.mem_cons.mp hb with hb' | hb'
      · exact absurd (ha'.trans hb'.symm) hne
      · rw [ha']
        exact Or.inl (hx b hb')
    · rcases List.mem_cons.mp hb with hb' | hb'
      · rw [hb']
        exact Or.inr (hx a ha')
      · exact ih hrest a ha' b hb' hne

/-- Strictly increasing timestamps reflect list positions. -/
theorem strLt_get_reflect (hourly : List HourlyRaw)
    (hord : List.Pairwise (fun a b => strLt (tsOf a) (tsOf b) = true) hourly)
    (i j : Fin hourly.length)
    (h : strLt (tsOf (hourly.get i)) (tsOf (hourly.get j)) = true) : i < j := by
  rcases lt_trichotomy i j with hij | hij | hij
  · exact hij
  · exfalso
    rw [hij] at h
    have h2 := strLt_irrefl (tsOf (hourly.get j))
    rw [h] at h2
    exact Bool.noConfusion h2
  · exfalso
    have h2 := List.pairwise_iff_get.mp hord j i hij
    have h3 := strLt_asymm h2
    rw [h] at h3
    exact Bool.noConfusion h3

/-- Every sample's timestamp is bounded by the last sample's timestamp. -/
theorem hourly_le_last (hourly : List HourlyRaw)
    (hord : List.Pairwise (fun a b => strLt (tsOf a) (tsOf b) = true) hourly) :
    ∀ h ∈ hourly, tsOf h = (hourly.getLast?.map tsOf).getD "" ∨
      strLt (tsOf h) ((hourly.getLast?.map tsOf).getD "") = true := by
  intro h hm
  have hne : hourly ≠ [] := List.ne_nil_of_mem hm
  rw [List.getLast?_eq_getLast hourly hne]
  simp only [Option.map_some', Option.getD_some]
  rw [List.getLast_eq_get hourly hne]
  rcases List.mem_iff_get.mp hm with ⟨i, hi⟩
  rcases lt_trichotomy (i : ℕ) (hourly.length - 1) with hlt | heq | hgt
  · right
    rw [← hi]
    exact List.pairwise_iff_get.mp hord i ⟨hourly.length - 1, by omega⟩ hlt
  · left
    rw [← hi]
    have hlen : hourly.length - 1 < hourly.length := by
      have := i.isLt
      omega
    have hieq : i = (⟨hourly.length - 1, hlen⟩ : Fin hourly.length) := Fin.ext heq
    rw [hieq]
  · exfalso
    have := i.isLt
    omega

-- =====================================================================
-- C5: the safety predicate
-- =====================================================================

/-- C5: the per-size thresholds are 25/27/28 with default 26 (keys are
the code's Japanese size names: 小型 = small, 中型 = medium, 大型 =
large), lowered by 1 for age >= 8; the apparent surface temperature adds
4 degrees exactly for parsed local hours 9..16; a sample is safe iff
apparent temperature <= threshold AND wind >= 1; equality at the
threshold is safe (given the wind bound) and exceeding it by 0.01 is
unsafe regardless of wind. -/
theorem thm_C5_safety_predicate (age thr : ℚ) (h : HourlyRaw) :
    (walkThreshold "小型" age = if 8 ≤ age then 24 else 25) ∧
    (walkThreshold "中型" age = if 8 ≤ age then 26 else 27) ∧
    (walkThreshold "大型" age = if 8 ≤ age then 27 else 28) ∧
    (∀ s : String, s ≠ "小型" → s ≠ "中型" → s ≠ "大型" →
      walkThreshold s age = if 8 ≤ age then 25 else 26) ∧
    (t_surf h = h.temp + (if 9 ≤ hourOf h.time ∧ hourOf h.time ≤ 16 then 4 else 0)) ∧
    (isSafe thr h = true ↔ (t_surf h ≤ thr ∧ 1 ≤ h.wind)) ∧
    (t_surf h = thr → (isSafe thr h = true ↔ 1 ≤ h.wind)) ∧
    (t_surf h = thr + 1/100 → isSafe thr h = false) := by
  have hsmall : dictGet SIZE_THRESH "小型" 26 = 25 := rfl
  have hmed : dictGet SIZE_THRESH "中型" 26 = 27 := rfl
  have hlarge : dictGet SIZE_THRESH "大型" 26 = 28 := rfl
  have hiff : isSafe thr h = true ↔ (t_surf h ≤ thr ∧ 1 ≤ h.wind) := by
    rw [isSafe, Bool.and_eq_true, decide_eq_true_eq, decide_eq_true_eq]
  refine ⟨?_, ?_, ?_, ?_, rfl, hiff, ?_, ?_⟩
  · simp only [walkThreshold, hsmall]
    split_ifs <;> norm_num
  · simp only [walkThreshold, hmed]
    split_ifs <;> norm_num
  · simp only [walkThreshold, hlarge]
    split_ifs <;> norm_num
  · intro s h1 h2 h3
    simp only [walkThreshold, SIZE_THRESH, dictGet, if_neg h1, if_neg h2, if_neg h3]
    split_ifs <;> norm_num
  · intro he
    rw [hiff, he]
    simp
  · intro he
    rw [isSafe]
    have : decide (t_surf h ≤ thr) = false := by
      rw [he]
      rw [decide_eq_false_iff_not]
      intro hle
      linarith
    rw [this]
    rfl

-- =====================================================================
-- C7: window non-emptiness and non-overlap
-- =====================================================================

/-- C7 counterexample: one safe sample (small dog, age 1, temp 20, wind 2
at 10:00 local — apparent 24 vs threshold 25).  The still-open window is
closed at the sequence end with the last sample's own timestamp, so the
returned window has start = end: the claimed invariant start < end fails,
even though the one-sample input is time-ordered. -/
theorem cex_C7_degenerate_window :
    recommend_time_windows [⟨"2026-02-03T10:00", 20, 50, 2⟩] "小型" 1 5 =
      [⟨"2026-02-03 10:00", "2026-02-03 10:00"⟩] ∧
    List.Pairwise (fun a b => strLt (tsOf a) (tsOf b) = true)
      ([⟨"2026-02-03T10:00", 20, 50, 2⟩] : List HourlyRaw) ∧
    ¬ strLt "2026-02-03 10:00" "2026-02-03 10:00" = true := by
  refine ⟨?_, by decide, by decide⟩
  have hthr : walkThreshold "小型" 1 = 25 := by
    simp only [walkThreshold]
    rw [if_neg (by norm_num : ¬ (8 : ℚ) ≤ 1)]
    rfl
  have hts : t_surf ⟨"2026-02-03T10:00", 20, 50, 2⟩ = 24 := by
    have h10 : hourOf "2026-02-03T10:00" = 10 := by decide
    rw [t_surf, h10]
    norm_num
  have hsafe : isSafe (walkThreshold "小型" 1) ⟨"2026-02-03T10:00", 20, 50, 2⟩ = true := by
    rw [isSafe, hts, hthr]
    rw [decide_eq_true (by norm_num : (24 : ℚ) ≤ 25)]
    rw [decide_eq_true (by norm_num : (1 : ℚ) ≤ 2)]
    rfl
  have htsof : tsOf ⟨"2026-02-03T10:00", 20, 50, 2⟩ = "2026-02-03 10:00" := by decide
  simp only [recommend_time_windows]
  rw [scanW, hsafe]
  rw [scanW]
  simp only [List.getLast?_cons, List.getLast?_nil, htsof]
  rfl

/-- C7 (amended): for a time-ordered input, every returned window
satisfies start <= end, with start < end unless the window was opened at
the final sample — in which case start = end = the final sample's
timestamp — and the windows are pairwise non-overlapping (each closes
strictly before every later one opens). -/
theorem thm_C7_window_invariants (hourly : List HourlyRaw) (size : String)
    (age weight : ℚ)
    (hord : List.Pairwise (fun a b => strLt (tsOf a) (tsOf b) = true) hourly) :
    (∀ w ∈ recommend_time_windows hourly size age weight,
        strLt w.start w.stop = true ∨
          (w.start = w.stop ∧ w.stop = (hourly.getLast?.map tsOf).getD "")) ∧
    List.Pairwise (fun a b => strLt a.stop b.start = true)
      (recommend_time_windows hourly size age weight) := by
  simp only [recommend_time_windows]
  have hbounds := scanW_bounds ((hourly.getLast?.map tsOf).getD "")
    (walkThreshold size age) hourly none hord
    (fun s hseq => Option.noConfusion hseq) (hourly_le_last hourly hord)
  constructor
  · exact fun w hw => hbounds w hw
  · refine window_chain_pairwise _ ?_ ?_
    · exact scanW_chain _ _ hourly none hord
    · intro w hw
      rcases hbounds w hw with h1 | ⟨h1, _⟩
      · exact Or.inl h1
      · exact Or.inr h1

/-- C7 witness: two time-ordered samples (the second one unsafe), for
which the amended invariants are established by the theorem. -/
theorem wit_C7_window_invariants :
    List.Pairwise (fun a b => strLt (tsOf a) (tsOf b) = true)
      ([⟨"2026-02-03T10:00", 20, 50, 2⟩, ⟨"2026-02-03T11:00", 40, 50, 2⟩] :
        List HourlyRaw) ∧
    (∀ w ∈ recommend_time_windows
        [⟨"2026-02-03T10:00", 20, 50, 2⟩, ⟨"2026-02-03T11:00", 40, 50, 2⟩] "小型" 1 5,
      strLt w.start w.stop = true ∨
        (w.start = w.stop ∧ w.stop =
          (([⟨"2026-02-03T10:00", 20, 50, 2⟩,
             ⟨"2026-02-03T11:00", 40, 50, 2⟩] : List HourlyRaw).getLast?.map tsOf).getD "")) :=
  ⟨by decide,
    (thm_C7_window_invariants
      [⟨"2026-02-03T10:00", 20, 50, 2⟩, ⟨"2026-02-03T11:00", 40, 50, 2⟩]
      "小型" 1 5 (by decide)).1⟩

-- =====================================================================
-- C6: window maximality
-- =====================================================================

/-- C6: for every time-ordered input, (i) no returned window's
[start, end) interval contains a non-safe sample, and (ii) two adjacent
safe samples are never placed in separate windows: any windows containing
them (by timestamp) coincide. -/
theorem thm_C6_window_maximality (hourly : List HourlyRaw) (size : String)
    (age weight : ℚ)
    (hord : List.Pairwise (fun a b => strLt (tsOf a) (tsOf b) = true) hourly) :
    (∀ w ∈ recommend_time_windows hourly size age weight, ∀ h ∈ hourly,
        isSafe (walkThreshold size age) h = false → ¬ containsHour w h) ∧
    (∀ (i : ℕ) (hsucc : i + 1 < hourly.length) (hi : i < hourly.length),
        isSafe (walkThreshold size age) (hourly.get ⟨i, hi⟩) = true →
        isSafe (walkThreshold size age) (hourly.get ⟨i + 1, hsucc⟩) = true →
        ∀ w1 ∈ recommend_time_windows hourly size age weight,
        ∀ w2 ∈ recommend_time_windows hourly size age weight,
          containsHour w1 (hourly.get ⟨i, hi⟩) →
          containsHour w2 (hourly.get ⟨i + 1, hsucc⟩) → w1 = w2) := by
  simp only [recommend_time_windows]
  have hnone : ∀ s : String,
      (none : Option String) = some s → ∀ h' ∈ hourly,
        isSafe (walkThreshold size age) h' = false →
        strLt (tsOf h') s = false → h' ∈ hourly :=
    fun s hseq => Option.noConfusion hseq
  have hglob : ∀ h' ∈ hourly, isSafe (walkThreshold size age) h' = false →
      ∀ hk ∈ hourly, strLt (tsOf h') (tsOf hk) = false → h' ∈ hourly :=
    fun h' hm _ _ _ _ => hm
  have hinside := scanW_no_unsafe ((hourly.getLast?.map tsOf).getD "")
    (walkThreshold size age) hourly hourly none hord hnone hglob
  constructor
  · exact fun w hw h hm hu hc => hinside w hw h hm hu hc
  · intro i hsucc hi hsafeA hsafeB w1 hw1 w2 hw2 hc1 hc2
    by_contra hne
    have hbounds := scanW_bounds ((hourly.getLast?.map tsOf).getD "")
      (walkThreshold size age) hourly none hord
      (fun s hseq => Option.noConfusion hseq) (hourly_le_last hourly hord)
    have hchain := scanW_chain ((hourly.getLast?.map tsOf).getD "")
      (walkThreshold size age) hourly none hord
    have hpw := window_chain_pairwise _ hchain (by
      intro w hw
      rcases hbounds w hw with h1 | ⟨h1, _⟩
      · exact Or.inl h1
      · exact Or.inr h1)
    have hAmem : hourly.get ⟨i, hi⟩ ∈ hourly := hourly.get_mem _ _
    have hBmem : hourly.get ⟨i + 1, hsucc⟩ ∈ hourly := hourly.get_mem _ _
    have hAB : strLt (tsOf (hourly.get ⟨i, hi⟩)) (tsOf (hourly.get ⟨i + 1, hsucc⟩)) = true :=
      List.pairwise_iff_get.mp hord ⟨i, hi⟩ ⟨i + 1, hsucc⟩ (by
        rw [Fin.mk_lt_mk]
        omega)
    rcases pairwise_rel_of_mem _ hpw w1 hw1 w2 hw2 hne with hP | hP
    · -- w1 closes before w2 opens; w1.stop must sit between the two
      -- adjacent timestamps, which is impossible.
      rcases scanW_stop_src _ _ hourly none w1 hw1 with hstop | ⟨hu, hum, huns, hstop⟩
      · -- w1.stop is the final timestamp: nothing lies beyond it.
        rcases hourly_le_last hourly hord _ hBmem with hbl | hbl
        · have hx : strLt (tsOf (hourly.get ⟨i + 1, hsucc⟩)) w2.start = true := by
            rw [hbl, ← hstop]
            exact hP
          rw [hc2.1] at hx
          exact Bool.noConfusion hx
        · have hx : strLt (tsOf (hourly.get ⟨i + 1, hsucc⟩)) w2.start = true := by
            refine strLt_trans hbl ?_
            rw [← hstop]
            exact hP
          rw [hc2.1] at hx
          exact Bool.noConfusion hx
      · -- w1.stop = timestamp of a non-safe sample hu strictly between
        -- the adjacent pair: its index must be both > i and < i+1.
        have h1 : strLt (tsOf (hourly.get ⟨i, hi⟩)) (tsOf hu) = true := by
          rw [← hstop]
          exact hc1.2
        have h2 : strLt (tsOf hu) (tsOf (hourly.get ⟨i + 1, hsucc⟩)) = true := by
          have hx : strLt (tsOf hu) w2.start = true := by
            rw [← hstop]
            exact hP
          rcases strLe_of_not_lt hc2.1 with heq | hlt
          · rw [← heq]
            exact hx
          · exact strLt_trans hx hlt
        rcases List.mem_iff_get.mp hum with ⟨m, hm⟩
        have hmi : (⟨i, hi⟩ : Fin hourly.length) < m :=
          strLt_get_reflect hourly hord _ _ (by rw [hm]; exact h1)
        have him : m < (⟨i + 1, hsucc⟩ : Fin hourly.length) :=
          strLt_get_reflect hourly hord _ _ (by rw [hm]; exact h2)
        have hmi' : i < (m : ℕ) := hmi
        have him' : (m : ℕ) < i + 1 := him
        omega
    · -- w2 closes before w1 opens: the later sample would sit before the
      -- earlier one.
      have hx : strLt (tsOf (hourly.get ⟨i + 1, hsucc⟩)) w1.start = true :=
        strLt_trans hc2.2 hP
      have h3 : strLt (tsOf (hourly.get ⟨i + 1, hsucc⟩)) (tsOf (hourly.get ⟨i, hi⟩)) = true := by
        rcases strLe_of_not_lt hc1.1 with heq | hlt
        · rw [← heq]
          exact hx
        · exact strLt_trans hx hlt
      have h4 := strLt_asymm hAB
      rw [h3] at h4
      exact Bool.noConfusion h4

/-- C6 witness: a concrete time-ordered two-sample input (both samples
safe) on which the theorem's hypothesis is discharged by evaluation. -/
theorem wit_C6_window_maximality :
    List.Pairwise (fun a b => strLt (tsOf a) (tsOf b) = true)
      ([⟨"2026-02-03T10:00", 20, 50, 2⟩, ⟨"2026-02-03T11:00", 20, 50, 2⟩] :
        List HourlyRaw) ∧
    (∀ w ∈ recommend_time_windows
        [⟨"2026-02-03T10:00", 20, 50, 2⟩, ⟨"2026-02-03T11:00", 20, 50, 2⟩] "小型" 1 5,
      ∀ h ∈ ([⟨"2026-02-03T10:00", 20, 50, 2⟩, ⟨"2026-02-03T11:00", 20, 50, 2⟩] :
          List HourlyRaw),
        isSafe (walkThreshold "小型" 1) h = false → ¬ containsHour w h) :=
  ⟨by decide,
    (thm_C6_window_maximality
      [⟨"2026-02-03T10:00", 20, 50, 2⟩, ⟨"2026-02-03T11:00", 20, 50, 2⟩]
      "小型" 1 5 (by decide)).1⟩
